import Mathlib

/-!
# Verification of the bento-cli bulk-operation safety engine

A shallow embedding of the core of the `bento-cli` TypeScript program:
the `Safety` class of `src/core/safety.ts` (the bulk-operation executor,
confirmation gate, preview renderer and result reporter), the email
target resolution of `src/commands/subscribers/helpers.ts`, and the
email-list parsing of `src/utils/csv.ts`.

Conventions of the embedding:
* JavaScript numbers that the code treats as integers are `Int`/`Nat`.
* `undefined`-able values are `Option`.
* Side effects on the terminal (the `output` module) are recorded as a
  list of events: each event is one call the `Safety` code makes into
  the `output` module, with its structured payload.
* The injected confirmation prompt is modelled by a boolean in the
  environment (the answer the prompt would return); the trace records
  every prompt issued, with its message and default answer.
* `operation.execute` is a function `List T → Except E R`: a thrown
  error is `Except.error`.
-/

namespace Bento

/-- Output mode of the `Output` singleton (`src/core/output.ts`):
`normal`, `json` or `quiet`. -/
inductive OutputMode where
  | normal
  | json
  | quiet
  deriving DecidableEq, Repr

/-- `SafetyConfig` from `src/types/safety.ts`. -/
structure SafetyConfig where
  confirmThreshold : Nat
  defaultSampleSize : Nat
  deriving DecidableEq, Repr

/-- `SafetyOptions` from `src/types/safety.ts`; `limit` and `sample`
are optional numbers. -/
structure SafetyOptions where
  dryRun : Bool
  limit : Option Int
  sample : Option Int
  confirm : Bool
  deriving DecidableEq, Repr

/-- `BulkOperation<T, R>` from `src/types/safety.ts`.  `F` is the type
of one formatted preview row (`Record<string, unknown>` in the source).
The optional `preview` hook only receives items, so only its presence is
modelled (`hasPreview`); the trace records the argument it is given.
`defaultFormat` stands for the built-in duck-typing fallback of
`Safety.formatSample` (item-as-record, or `\x7bindex, value\x7d`). -/
structure BulkOperation (T F R E : Type) where
  name : String
  items : List T
  execute : List T → Except E R
  formatItem : Option (T → Nat → F)
  hasPreview : Bool
  isDangerous : Bool
  defaultFormat : T → Nat → F

/-- The JSON envelope data payloads that `safety.ts` emits. -/
inductive EnvData (F : Type) where
  | nullData
  | dryRunData (dryRun : Bool) (action : String) (wouldAffect : Nat) (preview : List F)
  | cancelledData (cancelled : Bool)
  deriving DecidableEq

/-- The `\x7bsuccess, error, data, meta\x7d` response envelope
(`CLIResponse` in the source), restricted to the fields `safety.ts`
writes. -/
structure Envelope (F : Type) where
  success : Bool
  error : Option String
  data : EnvData F
  metaCount : Option Nat
  metaCode : Option Nat
  deriving DecidableEq

/-- One call the `Safety` code makes into the `output` module. -/
inductive OutEvent (F : Type) where
  | info (msg : String)
  | warn (msg : String)
  | jsonOut (e : Envelope F)
  | table (rows : List F) (total : Nat)
  | startSpinner (msg : String)
  | stopSpinner (msg : String)
  | failSpinner (msg : String)
  deriving DecidableEq

/-- A confirmation prompt issued through the injected prompt function:
its message and its default answer. -/
structure Prompt where
  message : String
  answerDefault : Bool
  deriving DecidableEq, Repr

/-- The ambient state `protect` reads: output mode, interactivity of the
terminal, the `BENTO_AUTO_CONFIRM` environment variable, and the answer
the injected confirmation prompt would return if asked. -/
structure Env where
  mode : OutputMode
  interactive : Bool
  autoConfirmEnv : Option String
  promptAnswer : Bool
  deriving DecidableEq, Repr

/-- Result of one `protect` call: `ok none` is a `null` return, `ok
(some r)` a normal result, `error e` a rethrown exception. -/
abbrev ProtectResult (R E : Type) := Except E (Option R)

/-- Full observable trace of one `protect` call. -/
structure ProtectTrace (T F R E : Type) where
  events : List (OutEvent F)
  prompts : List Prompt
  executeCalls : List (List T)
  previewCalls : List (List T)
  result : ProtectResult R E

/-- JavaScript `String.prototype.trim` on a character list: drop
whitespace from both ends. -/
def trimChars (l : List Char) : List Char :=
  ((l.dropWhile Char.isWhitespace).reverse.dropWhile Char.isWhitespace).reverse

/-- JavaScript `String.prototype.toLowerCase` on a character list
(basic-latin lowering, which covers every character the program
compares against). -/
def lowerChars (l : List Char) : List Char :=
  l.map Char.toLower

/-- `trim` lifted to `String`. -/
def trimStr (s : String) : String :=
  String.mk (trimChars s.data)

/-- `toLowerCase` lifted to `String`. -/
def lowerStr (s : String) : String :=
  String.mk (lowerChars s.data)

/-- `isTruthyEnv` from `src/core/safety.ts`: a missing or empty value is
falsy; otherwise the value, trimmed and lowercased, must be one of
`"1"`, `"true"`, `"yes"`, `"on"`. -/
def isTruthyEnv (value : Option String) : Bool :=
  match value with
  | none => false
  | some v =>
    if v = "" then false
    else
      let normalized := lowerStr (trimStr v)
      ["1", "true", "yes", "on"].contains normalized

namespace Safety

/-- `Safety.autoConfirmEnabled`. -/
def autoConfirmEnabled (env : Env) : Bool :=
  isTruthyEnv env.autoConfirmEnv

/-- `Safety.canPrompt`: interactive and not auto-confirmed. -/
def canPrompt (env : Env) : Bool :=
  env.interactive && !autoConfirmEnabled env

/-- `Safety.shouldPrompt` from `src/core/safety.ts`. -/
def shouldPrompt (cfg : SafetyConfig) (env : Env) (count : Nat)
    (options : SafetyOptions) (isDangerous : Bool) : Bool :=
  if options.confirm then false
  else if autoConfirmEnabled env then false
  else if !env.interactive then true
  else if isDangerous then true
  else decide (cfg.confirmThreshold ≤ count)

/-- `Safety.resolveSampleSize`: sample size used for the preview, from
the requested `--sample` value and the post-limit item count.  In the
source `!requested` is true for `undefined` and `0`, and `requested <= 0`
for negative values; both fall back to the default. -/
def resolveSampleSize (cfg : SafetyConfig) (requested : Option Int) (total : Nat) : Nat :=
  if total = 0 then 0
  else
    let fallback := min cfg.defaultSampleSize total
    match requested with
    | none => fallback
    | some r => if r ≤ 0 then fallback else min r.toNat total

/-- The effective limit of `protect` line 76:
`options.limit && options.limit > 0 ? Math.min(options.limit, originalCount) : undefined`. -/
def effectiveLimit (limit : Option Int) (originalCount : Nat) : Option Nat :=
  match limit with
  | none => none
  | some k => if 0 < k then some (min k.toNat originalCount) else none

/-- The items `protect` works on after the limiting step (lines 76–80). -/
def gatedItems {T : Type} (items : List T) (limit : Option Int) : List T :=
  match effectiveLimit limit items.length with
  | none => items
  | some l => if l < items.length then items.take l else items

/-- `Safety.formatSample`: apply the operation formatter, or the
built-in fallback, to each sample item with its index. -/
def formatSample {T F R E : Type} (op : BulkOperation T F R E) (sample : List T) : List F :=
  match op.formatItem with
  | some f => (sample.enum).map (fun p => f p.2 p.1)
  | none => (sample.enum).map (fun p => op.defaultFormat p.2 p.1)

/-- The irreversibility warning `renderPreview` prints for dangerous
operations. -/
def dangerWarning : String :=
  "This operation cannot be undone. Use --dry-run to preview and --confirm to skip prompts."

/-- The limiting notice of `protect` (line 78). -/
def limitingMessage (name : String) (limit originalCount : Nat) : String :=
  s!"Limiting {name} to {limit} of {originalCount} item(s)."

/-- The preview header line of `renderPreview` (line 172). -/
def previewHeader (name : String) (count : Nat) : String :=
  s!"{name}: {count} item(s)"

/-- The truncation note of `renderPreview` (line 185). -/
def previewNote (previewed count : Nat) : String :=
  s!"Previewing {previewed} of {count} item(s). Use --sample to change the sample size."

/-- The no-work warning of `emitNoWork` (line 233). -/
def noWorkMessage (name : String) : String :=
  s!"No items found for {name}. Nothing to do."

/-- The spinner start message of `protect` (line 115). -/
def executingMessage (name : String) : String :=
  s!"Executing {name}..."

/-- The spinner success message of `protect` (line 119). -/
def completeMessage (name : String) : String :=
  s!"{name} complete"

/-- The spinner failure message of `protect` (line 122). -/
def failedMessage (name : String) : String :=
  s!"{name} failed"

/-- The limiting notice events of `protect` (lines 77–80). -/
def limitEvents {F : Type} (name : String) (limit : Option Int) (originalCount : Nat) :
    List (OutEvent F) :=
  match effectiveLimit limit originalCount with
  | some l =>
    if l < originalCount then [OutEvent.info (limitingMessage name l originalCount)]
    else []
  | none => []

/-- `Safety.renderPreview`: the output events and `operation.preview`
calls of the preview stage.  Returns nothing in JSON or quiet mode. -/
def renderPreview {T F R E : Type} (env : Env) (op : BulkOperation T F R E)
    (count : Nat) (sampleItems : List T) (formattedSample : List F) :
    List (OutEvent F) × List (List T) :=
  if env.mode = OutputMode.quiet then ([], [])
  else if env.mode = OutputMode.json then ([], [])
  else
    let e1 : List (OutEvent F) := if op.isDangerous then [OutEvent.warn dangerWarning] else []
    let e2 : List (OutEvent F) := [OutEvent.info (previewHeader op.name count)]
    let e3 : List (OutEvent F) :=
      if 0 < formattedSample.length then [OutEvent.table formattedSample count]
      else [OutEvent.info "No matching records to preview."]
    let e4 : List (OutEvent F) :=
      if formattedSample.length < count then
        [OutEvent.info (previewNote formattedSample.length count)]
      else []
    let calls := if op.hasPreview then [sampleItems] else []
    (e1 ++ e2 ++ e3 ++ e4, calls)

/-- `Safety.emitDryRun`. -/
def emitDryRun (mode : OutputMode) (name : String) (sample : List F) (count : Nat) :
    List (OutEvent F) :=
  if mode = OutputMode.json then
    [OutEvent.jsonOut
      { success := true, error := none,
        data := EnvData.dryRunData true name count sample,
        metaCount := some count, metaCode := none }]
  else
    [OutEvent.info "Dry run complete. No changes were made."]

/-- `Safety.emitNoWork`: quiet mode emits nothing at all. -/
def emitNoWork (mode : OutputMode) (name : String) : List (OutEvent F) :=
  if mode = OutputMode.quiet then []
  else if mode = OutputMode.json then
    [OutEvent.jsonOut
      { success := true, error := none,
        data := EnvData.dryRunData true name 0 [],
        metaCount := some 0, metaCode := none }]
  else
    [OutEvent.warn (noWorkMessage name)]

/-- The fixed remediation hint of `Safety.emitPromptUnavailable`. -/
def promptUnavailableMessage (name : String) : String :=
  s!"Cannot run {name} without --confirm in non-interactive mode. Re-run with --confirm or set BENTO_AUTO_CONFIRM=true."

/-- `Safety.emitPromptUnavailable`. -/
def emitPromptUnavailable (mode : OutputMode) (name : String) : List (OutEvent F) :=
  let message := promptUnavailableMessage name
  if mode = OutputMode.json then
    [OutEvent.jsonOut
      { success := false, error := some message,
        data := EnvData.nullData, metaCount := none, metaCode := some 6 }]
  else
    [OutEvent.warn message]

/-- `Safety.emitCancelled`. -/
def emitCancelled (mode : OutputMode) : List (OutEvent F) :=
  if mode = OutputMode.json then
    [OutEvent.jsonOut
      { success := true, error := none,
        data := EnvData.cancelledData true,
        metaCount := some 0, metaCode := none }]
  else
    [OutEvent.warn "Operation cancelled."]

/-- The message of the confirmation prompt of `protect` (line 105). -/
def protectPromptMessage (name : String) (count : Nat) : String :=
  s!"Proceed with {name} on {count} item(s)?"

/-- The execution stage of `protect` (lines 115–124): start the
spinner, call `operation.execute` once on the gated items, stop the
spinner with a success or failure marker, return or rethrow. -/
def executeStage {T F R E : Type} (op : BulkOperation T F R E) (items : List T)
    (eventsSoFar : List (OutEvent F)) (prompts : List Prompt)
    (previewCalls : List (List T)) : ProtectTrace T F R E :=
  let start : List (OutEvent F) := [OutEvent.startSpinner (executingMessage op.name)]
  match op.execute items with
  | Except.ok r =>
    { events := eventsSoFar ++ start ++ [OutEvent.stopSpinner (completeMessage op.name)],
      prompts := prompts, executeCalls := [items], previewCalls := previewCalls,
      result := Except.ok (some r) }
  | Except.error e =>
    { events := eventsSoFar ++ start ++ [OutEvent.failSpinner (failedMessage op.name)],
      prompts := prompts, executeCalls := [items], previewCalls := previewCalls,
      result := Except.error e }

/-- `Safety.protect` from `src/core/safety.ts`, lines 67–125, as a pure
function from configuration, ambient environment, operation and options
to the full observable trace. -/
def protect {T F R E : Type} (cfg : SafetyConfig) (env : Env)
    (op : BulkOperation T F R E) (options : SafetyOptions) : ProtectTrace T F R E :=
  let originalCount := op.items.length
  if originalCount = 0 then
    { events := emitNoWork env.mode op.name, prompts := [],
      executeCalls := [], previewCalls := [], result := Except.ok none }
  else
    let items := gatedItems op.items options.limit
    let limEv : List (OutEvent F) := limitEvents op.name options.limit originalCount
    let count := items.length
    let sampleSize := resolveSampleSize cfg options.sample count
    let sampleItems := items.take sampleSize
    let formattedSample := formatSample op sampleItems
    let pv := renderPreview env op count sampleItems formattedSample
    let previewCalls := pv.2
    let eventsSoFar := limEv ++ pv.1
    if options.dryRun then
      { events := eventsSoFar ++ emitDryRun env.mode op.name formattedSample count,
        prompts := [], executeCalls := [], previewCalls := previewCalls,
        result := Except.ok none }
    else if shouldPrompt cfg env count options op.isDangerous then
      if !canPrompt env then
        { events := eventsSoFar ++ emitPromptUnavailable env.mode op.name,
          prompts := [], executeCalls := [], previewCalls := previewCalls,
          result := Except.ok none }
      else
        let prompt : Prompt := { message := protectPromptMessage op.name count, answerDefault := false }
        if !env.promptAnswer then
          { events := eventsSoFar ++ emitCancelled env.mode,
            prompts := [prompt], executeCalls := [], previewCalls := previewCalls,
            result := Except.ok none }
        else
          executeStage op items eventsSoFar [prompt] previewCalls
    else
      executeStage op items eventsSoFar [] previewCalls

end Safety

/-! ## Email-list parsing (`src/utils/csv.ts`) and target resolution
(`src/commands/subscribers/helpers.ts`) -/

/-- Split a character list at every occurrence of `sep` (JavaScript
`String.prototype.split` semantics: n separators give n+1 pieces). -/
def splitOnChar (sep : Char) : List Char → List (List Char)
  | [] => [[]]
  | c :: rest =>
    if c = sep then [] :: splitOnChar sep rest
    else
      match splitOnChar sep rest with
      | [] => [[c]]
      | l :: ls => (c :: l) :: ls

/-- Remove one trailing carriage return, if present. -/
def dropTrailingCR (l : List Char) : List Char :=
  if l.getLast? = some '\r' then l.dropLast else l

/-- JavaScript `content.split(/\r?\n/)`: split at newlines, treating a
carriage return immediately before a newline as part of the
separator. -/
def splitLinesJS (content : List Char) : List (List Char) :=
  (splitOnChar '\n' content).map dropTrailingCR

/-- `isValidEmail` from `src/utils/csv.ts`: the regular expression
test for the pattern anchored-start, one or more characters that are
neither whitespace nor at-sign, an at-sign, one or more such
characters, a dot, one or more such characters, anchored-end —
equivalently: a non-empty whitespace-free local part before the first
at-sign, a domain with no further at-sign and no whitespace, and a dot
strictly inside the domain. -/
def isValidEmailChars (l : List Char) : Bool :=
  let p := l.span (fun c => c ≠ '@')
  match p.2 with
  | [] => false
  | _ :: domain =>
    !p.1.isEmpty && p.1.all (fun c => !c.isWhitespace) &&
    domain.all (fun c => !c.isWhitespace && c ≠ '@') &&
    decide ('.' ∈ (domain.drop 1).dropLast)

/-- `isValidEmail` on `String`. -/
def isValidEmail (email : String) : Bool :=
  isValidEmailChars email.data

/-- `normalizeEmail` from `src/utils/csv.ts`: trim, then lowercase. -/
def normalizeEmail (email : String) : String :=
  lowerStr (trimStr email)

/-- `CSVErrorDetail` from `src/utils/csv.ts`. -/
structure CSVErrorDetail where
  line : Nat
  column : Option String
  message : String
  value : Option String
  deriving DecidableEq, Repr

/-- `EmailListParseResult` from `src/utils/csv.ts`. -/
structure EmailListParseResult where
  emails : List String
  errors : List CSVErrorDetail
  deriving DecidableEq, Repr

/-- Insertion into the JavaScript `Set` of emails, as materialised by
`Array.from`: append if not already present (first-seen order is
kept). -/
def addEmail (emails : List String) (e : String) : List String :=
  if e ∈ emails then emails else emails ++ [e]

/-- First-seen-order deduplication: fold a sequence through the
`Set`-insertion `addEmail`, so each value is kept at its first
occurrence and later duplicates are dropped. -/
def dedupFirstSeen (l : List String) : List String :=
  l.foldl addEmail []

/-- The result of `tryParseEmailCSV`: the matched email column key and
the parsed records (each record is the header keys zipped with the row
fields). -/
structure EmailCsvTable where
  emailKey : String
  rows : List (List (String × String))

/-- `findColumnKey` from `src/utils/csv.ts`: first column whose
trimmed, lowercased name equals the lowercased target. -/
def findColumnKey (columns : List String) (target : String) : Option String :=
  let lowered := lowerStr target
  columns.find? (fun column => lowerStr (trimStr column) = lowered)

/-- The external `csv-parse/sync` collaborator with options
`\x7bbom, columns: true, skip_empty_lines, trim\x7d`, modelled for
plain unquoted content: non-empty lines, the first line giving the
column names, every field trimmed, records keyed by column name. -/
def csvRecords (content : String) : List (List (String × String)) :=
  match (splitLinesJS content.data).filter (fun l => !l.isEmpty) with
  | [] => []
  | h :: rest =>
    let header := (splitOnChar ',' h).map (fun f => String.mk (trimChars f))
    rest.map (fun line => header.zip ((splitOnChar ',' line).map (fun f => String.mk (trimChars f))))

/-- `tryParseEmailCSV` from `src/utils/csv.ts`: `none` when parsing
fails, yields no records, or the records lack an email column. -/
def tryParseEmailCSV (content : String) : Option EmailCsvTable :=
  match csvRecords content with
  | [] => none
  | r0 :: rest =>
    match findColumnKey (r0.map Prod.fst) "email" with
    | none => none
    | some k => some { emailKey := k, rows := r0 :: rest }

/-- JavaScript property access `row[key]` on a parsed record. -/
def rowGet (row : List (String × String)) (key : String) : Option String :=
  (row.find? (fun p => p.1 = key)).map Prod.snd

/-- One step of the CSV branch of `parseEmailList` (`rows.forEach`):
validate the row's email cell, recording an error or inserting the
normalized email. -/
def csvEmailStep (emailKey : String) (st : List String × List CSVErrorDetail)
    (p : Nat × List (String × String)) : List String × List CSVErrorDetail :=
  let lineNumber := p.1 + 2
  let rawEmail := trimStr ((rowGet p.2 emailKey).getD "")
  if rawEmail = "" then
    (st.1, st.2 ++ [{ line := lineNumber, column := some emailKey,
                      message := "Missing email", value := none }])
  else if !isValidEmail rawEmail then
    (st.1, st.2 ++ [{ line := lineNumber, column := some emailKey,
                      message := "Invalid email format", value := some rawEmail }])
  else
    (addEmail st.1 (normalizeEmail rawEmail), st.2)

/-- One step of the plain-list branch of `parseEmailList`
(`lines.forEach`): skip blank lines, record an error for an invalid
email, insert the normalized email otherwise. -/
def lineEmailStep (st : List String × List CSVErrorDetail)
    (p : Nat × List Char) : List String × List CSVErrorDetail :=
  let trimmed := trimChars p.2
  if trimmed.isEmpty then st
  else if !isValidEmailChars trimmed then
    (st.1, st.2 ++ [{ line := p.1 + 1, column := none,
                      message := "Invalid email format", value := some (String.mk trimmed) }])
  else
    (addEmail st.1 (normalizeEmail (String.mk trimmed)), st.2)

/-- `parseEmailList` from `src/utils/csv.ts`, parametrised by the
result of the CSV detection step, so that properties can be proved for
every possible behaviour of the external CSV parser. -/
def parseEmailListWith (csv : Option EmailCsvTable) (content : String) : EmailListParseResult :=
  match csv with
  | some t =>
    let st := (t.rows.enum).foldl (csvEmailStep t.emailKey) ([], [])
    { emails := st.1, errors := st.2 }
  | none =>
    let st := ((splitLinesJS content.data).enum).foldl lineEmailStep ([], [])
    { emails := st.1, errors := st.2 }

/-- `parseEmailList` from `src/utils/csv.ts`: file reading is modelled
by passing the file's content. -/
def parseEmailList (content : String) : EmailListParseResult :=
  parseEmailListWith (tryParseEmailCSV content) content

/-- The sequence of normalized emails the CSV branch of
`parseEmailList` accepts, in row order: the per-row test of
`rows.forEach`, without the deduplicating `Set`. -/
def csvEmailsRaw (emailKey : String) (rows : List (List (String × String))) : List String :=
  rows.filterMap (fun row =>
    let rawEmail := trimStr ((rowGet row emailKey).getD "")
    if rawEmail = "" then none
    else if !isValidEmail rawEmail then none
    else some (normalizeEmail rawEmail))

/-- The sequence of normalized emails the plain-list branch of
`parseEmailList` accepts, in line order. -/
def lineEmailsRaw (lines : List (List Char)) : List String :=
  lines.filterMap (fun line =>
    let trimmed := trimChars line
    if trimmed.isEmpty then none
    else if !isValidEmailChars trimmed then none
    else some (normalizeEmail (String.mk trimmed)))

/-- The accepted-email sequence of `parseEmailListWith`, in processing
order. -/
def emailOccurrences (csv : Option EmailCsvTable) (content : String) : List String :=
  match csv with
  | some t => csvEmailsRaw t.emailKey t.rows
  | none => lineEmailsRaw (splitLinesJS content.data)

/-- The three possible decisions of the confirmation gate. -/
inductive GateDecision where
  | proceed
  | refuse
  | prompt
  deriving DecidableEq, Repr

/-- The confirmation-gate decision as the code computes it: `protect`
(lines 98–113) prompts when `shouldPrompt` holds and `canPrompt` holds,
refuses when `shouldPrompt` holds but `canPrompt` fails, and otherwise
proceeds without prompting. -/
def Safety.gateDecision (cfg : SafetyConfig) (env : Env) (count : Nat)
    (options : SafetyOptions) (isDangerous : Bool) : GateDecision :=
  if Safety.shouldPrompt cfg env count options isDangerous then
    if Safety.canPrompt env then GateDecision.prompt else GateDecision.refuse
  else GateDecision.proceed

/-- Auto-confirm as the spec's words describe it: enabled iff the
environment value, trimmed and lowercased, is one of `"1"`, `"true"`,
`"yes"`, `"on"`. -/
def autoConfirmFiveStep (v : Option String) : Bool :=
  match v with
  | none => false
  | some s => ["1", "true", "yes", "on"].contains (lowerStr (trimStr s))

/-- The five-step reference decision of the spec (§4.2), stated from
the spec's words for comparison with `Safety.gateDecision`. -/
def gateDecisionFiveStep (cfg : SafetyConfig) (env : Env) (count : Nat)
    (options : SafetyOptions) (isDangerous : Bool) : GateDecision :=
  if options.confirm || autoConfirmFiveStep env.autoConfirmEnv then GateDecision.proceed
  else if !env.interactive then GateDecision.refuse
  else if isDangerous then GateDecision.prompt
  else if cfg.confirmThreshold ≤ count then GateDecision.prompt
  else GateDecision.proceed

/-- A concrete ten-item bulk operation, used to evaluate the safety
engine at specific inputs (`T = Nat`, formatted rows are
index–value pairs, mirroring the `\x7bindex, value\x7d` fallback). -/
def tenItemOp : BulkOperation Nat (Nat × Nat) Nat String :=
  { name := "demo", items := List.range 10,
    execute := fun l => Except.ok l.length,
    formatItem := none, hasPreview := true, isDangerous := false,
    defaultFormat := fun item index => (index, item) }

/-- A concrete three-item bulk operation whose executor always
throws. -/
def failingOp : BulkOperation Nat (Nat × Nat) Nat String :=
  { name := "demo", items := [1, 2, 3],
    execute := fun _ => Except.error "network down",
    formatItem := none, hasPreview := false, isDangerous := false,
    defaultFormat := fun item index => (index, item) }

/-- A concrete bulk operation with an empty item list. -/
def emptyOp : BulkOperation Nat (Nat × Nat) Nat String :=
  { name := "demo", items := [],
    execute := fun l => Except.ok l.length,
    formatItem := none, hasPreview := false, isDangerous := false,
    defaultFormat := fun item index => (index, item) }

/-- Outcome of `resolveEmailTargets` from
`src/commands/subscribers/helpers.ts`: a `process.exit` with a code, a
`null` return (no target flag given), or a resolved list. -/
inductive ResolveOutcome where
  | exitCode (code : Nat)
  | noTarget
  | resolved (emails : List String) (errors : List CSVErrorDetail)
  deriving DecidableEq, Repr

/-- The `--file` branch of `resolveEmailTargets`; the file is modelled
by its content (`none` when the flag is absent). -/
def resolveFileTarget (fileContent : Option String) : ResolveOutcome :=
  match fileContent with
  | some content =>
    let r := parseEmailList content
    ResolveOutcome.resolved r.emails r.errors
  | none => ResolveOutcome.noTarget

/-- `resolveEmailTargets` from `src/commands/subscribers/helpers.ts`:
an empty `--email` string is falsy in the source, so control falls
through to the `--file` branch. -/
def resolveEmailTargets (emailOpt : Option String) (fileContent : Option String) :
    ResolveOutcome :=
  match emailOpt with
  | some e =>
    if e = "" then resolveFileTarget fileContent
    else
      let trimmed := trimStr e
      if trimmed = "" then ResolveOutcome.exitCode 2
      else if !isValidEmail trimmed then ResolveOutcome.exitCode 2
      else ResolveOutcome.resolved [normalizeEmail trimmed] []
  | none => resolveFileTarget fileContent

/-- The accepted-email sequence of `resolveEmailTargets`, in processing
order: a one-element sequence for the `--email` branch, the file's
accepted sequence for the `--file` branch. -/
def targetOccurrences (emailOpt fileContent : Option String) : List String :=
  match emailOpt with
  | some e =>
    if e = "" then
      match fileContent with
      | some content => emailOccurrences (tryParseEmailCSV content) content
      | none => []
    else [normalizeEmail (trimStr e)]
  | none =>
    match fileContent with
    | some content => emailOccurrences (tryParseEmailCSV content) content
    | none => []

/-! ## Helper lemmas about the safety engine -/

theorem isTruthyEnv_eq_fiveStep (v : Option String) :
    isTruthyEnv v = autoConfirmFiveStep v := by
  cases v with
  | none => rfl
  | some s =>
    unfold isTruthyEnv autoConfirmFiveStep
    by_cases h : s = ""
    · subst h; decide
    · simp [h]

theorem executeStage_executeCalls {T F R E : Type} (op : BulkOperation T F R E)
    (items : List T) (ev : List (OutEvent F)) (pr : List Prompt) (pc : List (List T)) :
    (Safety.executeStage op items ev pr pc).executeCalls = [items] := by
  unfold Safety.executeStage
  split <;> rfl

theorem executeStage_prompts {T F R E : Type} (op : BulkOperation T F R E)
    (items : List T) (ev : List (OutEvent F)) (pr : List Prompt) (pc : List (List T)) :
    (Safety.executeStage op items ev pr pc).prompts = pr := by
  unfold Safety.executeStage
  split <;> rfl

theorem executeStage_previewCalls {T F R E : Type} (op : BulkOperation T F R E)
    (items : List T) (ev : List (OutEvent F)) (pr : List Prompt) (pc : List (List T)) :
    (Safety.executeStage op items ev pr pc).previewCalls = pc := by
  unfold Safety.executeStage
  split <;> rfl

theorem executeStage_error {T F R E : Type} (op : BulkOperation T F R E)
    (items : List T) (ev : List (OutEvent F)) (pr : List Prompt) (pc : List (List T))
    (e : E) (h : op.execute items = Except.error e) :
    (Safety.executeStage op items ev pr pc).result = Except.error e ∧
    (Safety.executeStage op items ev pr pc).events =
      ev ++ [OutEvent.startSpinner (Safety.executingMessage op.name)] ++
        [OutEvent.failSpinner (Safety.failedMessage op.name)] := by
  unfold Safety.executeStage
  rw [h]
  exact ⟨rfl, rfl⟩

theorem executeStage_table_mem {T F R E : Type} (op : BulkOperation T F R E)
    (items : List T) (ev : List (OutEvent F)) (pr : List Prompt) (pc : List (List T))
    (rows : List F) (total : Nat)
    (h : OutEvent.table rows total ∈ (Safety.executeStage op items ev pr pc).events) :
    OutEvent.table rows total ∈ ev := by
  unfold Safety.executeStage at h
  split at h <;> simp only [List.mem_append] at h <;>
    rcases h with (h | h) | h <;> first | exact h | simp at h

theorem executeStage_mem_of_mem_ev {T F R E : Type} (op : BulkOperation T F R E)
    (items : List T) (ev : List (OutEvent F)) (pr : List Prompt) (pc : List (List T))
    (x : OutEvent F) (h : x ∈ ev) :
    x ∈ (Safety.executeStage op items ev pr pc).events := by
  unfold Safety.executeStage
  split <;> simp only [List.mem_append] <;> exact Or.inl (Or.inl h)

theorem protect_executeCalls_shape {T F R E : Type} (cfg : SafetyConfig) (env : Env)
    (op : BulkOperation T F R E) (options : SafetyOptions) :
    (Safety.protect cfg env op options).executeCalls = [] ∨
    (Safety.protect cfg env op options).executeCalls =
      [Safety.gatedItems op.items options.limit] := by
  simp only [Safety.protect]
  split
  · exact Or.inl rfl
  · split
    · exact Or.inl rfl
    · split
      · split
        · exact Or.inl rfl
        · split
          · exact Or.inl rfl
          · exact Or.inr (executeStage_executeCalls ..)
      · exact Or.inr (executeStage_executeCalls ..)

theorem gatedItems_limit {T : Type} (items : List T) (k : Int)
    (hpos : 0 < k) (hlt : k.toNat < items.length) :
    Safety.gatedItems items (some k) = items.take k.toNat := by
  simp only [Safety.gatedItems, Safety.effectiveLimit]
  rw [if_pos hpos]
  dsimp only
  rw [min_eq_left hlt.le, if_pos hlt]

theorem gatedItems_length_pos {T : Type} (items : List T) (lim : Option Int)
    (h : 0 < items.length) : 0 < (Safety.gatedItems items lim).length := by
  unfold Safety.gatedItems Safety.effectiveLimit
  cases lim with
  | none => simpa
  | some k =>
    dsimp only
    split
    next hl => simpa
    next l hl =>
      have hk : 0 < k := by
        by_contra hk
        rw [if_neg hk] at hl
        cases hl
      rw [if_pos hk] at hl
      injection hl with hl
      split
      next hlt => simp only [List.length_take]; omega
      next hlt => simpa

theorem limitEvents_no_table {F : Type} (name : String) (limit : Option Int)
    (oc : Nat) (rows : List F) (total : Nat) :
    OutEvent.table rows total ∉ Safety.limitEvents name limit oc := by
  unfold Safety.limitEvents
  split
  · split <;> simp
  · simp

theorem renderPreview_table_char {T F R E : Type} (env : Env) (op : BulkOperation T F R E)
    (count : Nat) (sampleItems : List T) (fs : List F) (rows : List F) (total : Nat)
    (h : OutEvent.table rows total ∈ (Safety.renderPreview env op count sampleItems fs).1) :
    rows = fs ∧ total = count := by
  unfold Safety.renderPreview at h
  split at h
  · simp at h
  · split at h
    · simp at h
    · simp only [List.mem_append] at h
      rcases h with ((h1 | h2) | h3) | h4
      · split at h1 <;> simp at h1
      · simp at h2
      · split at h3
        · simp at h3
          exact ⟨h3.1, h3.2⟩
        · simp at h3
      · split at h4 <;> simp at h4

theorem renderPreview_table_exists {T F R E : Type} (env : Env) (op : BulkOperation T F R E)
    (count : Nat) (sampleItems : List T) (fs : List F)
    (hn : env.mode = OutputMode.normal) (hfs : 0 < fs.length) :
    OutEvent.table fs count ∈ (Safety.renderPreview env op count sampleItems fs).1 := by
  unfold Safety.renderPreview
  rw [hn]
  simp [List.mem_append, hfs]

theorem renderPreview_previewCalls_char {T F R E : Type} (env : Env) (op : BulkOperation T F R E)
    (count : Nat) (sampleItems : List T) (fs : List F) (xs : List T)
    (h : xs ∈ (Safety.renderPreview env op count sampleItems fs).2) :
    xs = sampleItems := by
  unfold Safety.renderPreview at h
  split at h
  · simp at h
  · split at h
    · simp at h
    · dsimp only at h
      split at h <;> simp at h
      exact h

theorem formatSample_length {T F R E : Type} (op : BulkOperation T F R E) (sample : List T) :
    (Safety.formatSample op sample).length = sample.length := by
  unfold Safety.formatSample
  split <;> simp

theorem resolveSampleSize_two (cfg : SafetyConfig) (c : Nat) (hc : 0 < c) :
    Safety.resolveSampleSize cfg (some 2) c = min 2 c := by
  unfold Safety.resolveSampleSize
  rw [if_neg (by omega)]
  dsimp only
  rw [if_neg (by norm_num)]
  rfl

/-! ## Claim theorems -/

/-- Claim C1: one `protect` call invokes `execute` at most once, and
invokes it zero times (returning `null`) whenever the item list is
empty, or `dryRun` is set, or the confirmation prompt is declined, or
the operation is refused because prompting is impossible. -/
theorem protect_execute_at_most_once {T F R E : Type} (cfg : SafetyConfig) (env : Env)
    (op : BulkOperation T F R E) (options : SafetyOptions) :
    (Safety.protect cfg env op options).executeCalls.length ≤ 1 ∧
    ((op.items = [] ∨ options.dryRun = true ∨
        ((Safety.protect cfg env op options).prompts ≠ [] ∧ env.promptAnswer = false) ∨
        (Safety.shouldPrompt cfg env (Safety.gatedItems op.items options.limit).length options
            op.isDangerous = true ∧
          Safety.canPrompt env = false)) →
      (Safety.protect cfg env op options).executeCalls = [] ∧
      (Safety.protect cfg env op options).result = Except.ok none) := by
  simp only [Safety.protect]
  split
  case isTrue h0 => exact ⟨by simp, fun _ => ⟨rfl, rfl⟩⟩
  case isFalse h0 =>
    split
    case isTrue hdr => exact ⟨by simp, fun _ => ⟨rfl, rfl⟩⟩
    case isFalse hdr =>
      split
      case isTrue hsp =>
        split
        case isTrue hcp => exact ⟨by simp, fun _ => ⟨rfl, rfl⟩⟩
        case isFalse hcp =>
          split
          case isTrue hans =>
            exact ⟨by simp, fun _ => ⟨rfl, rfl⟩⟩
          case isFalse hans =>
            rw [executeStage_executeCalls, executeStage_prompts]
            refine ⟨by simp, ?_⟩
            rintro (h | h | ⟨_, h⟩ | ⟨_, h⟩)
            · exact absurd (List.length_eq_zero.mpr h) h0
            · exact absurd h (by simpa using hdr)
            · simp [h] at hans
            · simp [h] at hcp
      case isFalse hsp =>
        rw [executeStage_executeCalls, executeStage_prompts]
        refine ⟨by simp, ?_⟩
        rintro (h | h | ⟨h, _⟩ | ⟨h, _⟩)
        · exact absurd (List.length_eq_zero.mpr h) h0
        · exact absurd h (by simpa using hdr)
        · exact (h rfl).elim
        · exact absurd h (by simpa using hsp)

theorem protect_execute_at_most_once_witness :
    (Safety.protect ⟨10, 5⟩ ⟨OutputMode.normal, true, none, true⟩ tenItemOp
      { dryRun := true, limit := none, sample := none, confirm := false }).executeCalls = [] ∧
    (Safety.protect ⟨10, 5⟩ ⟨OutputMode.normal, true, none, true⟩ tenItemOp
      { dryRun := true, limit := none, sample := none, confirm := false }).result =
      Except.ok none :=
  (protect_execute_at_most_once ⟨10, 5⟩ ⟨OutputMode.normal, true, none, true⟩ tenItemOp
    { dryRun := true, limit := none, sample := none, confirm := false }).2
    (Or.inr (Or.inl rfl))

/-- Claim C3: when `limit = k` with `0 < k` smaller than the item
count, every array passed to `execute` is exactly the first `k` items
of `operation.items` in their original order. -/
theorem protect_limit_prefix {T F R E : Type} (cfg : SafetyConfig) (env : Env)
    (op : BulkOperation T F R E) (options : SafetyOptions) (k : Int)
    (hk : options.limit = some k) (hpos : 0 < k) (hlt : k.toNat < op.items.length) :
    ∀ xs ∈ (Safety.protect cfg env op options).executeCalls,
      xs = op.items.take k.toNat := by
  intro xs hxs
  rcases protect_executeCalls_shape cfg env op options with h | h
  · rw [h] at hxs; cases hxs
  · rw [h] at hxs
    rw [List.mem_singleton.mp hxs, hk, gatedItems_limit op.items k hpos hlt]

theorem protect_limit_prefix_witness :
    (0 : Int) < 3 ∧ (3 : Int).toNat < tenItemOp.items.length ∧
    [0, 1, 2] = tenItemOp.items.take (3 : Int).toNat :=
  ⟨by decide, by decide,
    protect_limit_prefix ⟨10, 5⟩ ⟨OutputMode.normal, true, none, true⟩ tenItemOp
      { dryRun := false, limit := some 3, sample := none, confirm := true } 3 rfl
      (by decide) (by decide) [0, 1, 2] (by decide)⟩

/-- Claim C4: the confirmation-gate decision computed by the code
(`shouldPrompt`/`canPrompt` as combined in `protect`) equals the
five-step reference decision of the spec, including the truthiness
reading of the auto-confirm environment variable. -/
theorem gateDecision_eq_fiveStep (cfg : SafetyConfig) (env : Env) (count : Nat)
    (options : SafetyOptions) (isDangerous : Bool) :
    Safety.gateDecision cfg env count options isDangerous =
      gateDecisionFiveStep cfg env count options isDangerous := by
  unfold Safety.gateDecision gateDecisionFiveStep Safety.shouldPrompt Safety.canPrompt
    Safety.autoConfirmEnabled
  simp only [isTruthyEnv_eq_fiveStep]
  cases hc : options.confirm <;> cases ha : autoConfirmFiveStep env.autoConfirmEnv <;>
    cases hi : env.interactive <;> cases hd : isDangerous <;>
      by_cases ht : cfg.confirmThreshold ≤ count <;> simp [hc, ha, hi, hd, ht]

/-- Claim C5: non-interactive invocation without `confirm` or
auto-confirm never calls `execute`, returns `null`, and — in JSON mode
— reports the fixed remediation hint in a failure envelope. -/
theorem protect_noninteractive_refusal {T F R E : Type} (cfg : SafetyConfig) (env : Env)
    (op : BulkOperation T F R E) (options : SafetyOptions)
    (hne : op.items ≠ []) (hdr : options.dryRun = false) (hint : env.interactive = false)
    (hcf : options.confirm = false) (hac : isTruthyEnv env.autoConfirmEnv = false) :
    (Safety.protect cfg env op options).executeCalls = [] ∧
    (Safety.protect cfg env op options).result = Except.ok none ∧
    (env.mode = OutputMode.json →
      (Safety.protect cfg env op options).events.getLast? =
        some (OutEvent.jsonOut
          { success := false, error := some (Safety.promptUnavailableMessage op.name),
            data := EnvData.nullData, metaCount := none, metaCode := some 6 })) := by
  have hsp : ∀ c d, Safety.shouldPrompt cfg env c options d = true := by
    intro c d
    unfold Safety.shouldPrompt Safety.autoConfirmEnabled
    simp [hcf, hac, hint]
  have hcp : Safety.canPrompt env = false := by
    unfold Safety.canPrompt
    simp [hint]
  simp only [Safety.protect]
  split
  case isTrue h0 => exact absurd (List.length_eq_zero.mp h0) hne
  case isFalse h0 =>
    split
    case isTrue h => rw [hdr] at h; cases h
    case isFalse h =>
      split
      case isFalse h' => exact absurd (hsp _ _) (by simpa using h')
      case isTrue h' =>
        split
        case isFalse h'' => rw [hcp] at h''; simp at h''
        case isTrue h'' =>
          refine ⟨rfl, rfl, fun hjson => ?_⟩
          dsimp only
          rw [Safety.emitPromptUnavailable, if_pos hjson]
          exact List.getLast?_concat _

theorem protect_noninteractive_refusal_witness :
    (Safety.protect ⟨10, 5⟩ ⟨OutputMode.json, false, none, true⟩ tenItemOp
      { dryRun := false, limit := none, sample := none, confirm := false }).executeCalls = [] ∧
    (Safety.protect ⟨10, 5⟩ ⟨OutputMode.json, false, none, true⟩ tenItemOp
      { dryRun := false, limit := none, sample := none, confirm := false }).result =
      Except.ok none ∧
    (Safety.protect ⟨10, 5⟩ ⟨OutputMode.json, false, none, true⟩ tenItemOp
      { dryRun := false, limit := none, sample := none, confirm := false }).events.getLast? =
      some (OutEvent.jsonOut
        { success := false, error := some (Safety.promptUnavailableMessage "demo"),
          data := EnvData.nullData, metaCount := none, metaCode := some 6 }) := by
  have h := protect_noninteractive_refusal ⟨10, 5⟩ ⟨OutputMode.json, false, none, true⟩
    tenItemOp { dryRun := false, limit := none, sample := none, confirm := false }
    (by decide) rfl rfl rfl rfl
  exact ⟨h.1, h.2.1, h.2.2 rfl⟩

/-- Claim C6: every confirmation prompt carries the message
`Proceed with {name} on {count} item(s)?` with default `no`; a declined
prompt never reaches `execute`, returns `null`, and — in JSON mode —
is reported as a success envelope with `cancelled: true`. -/
theorem protect_prompt_message_decline_cancels {T F R E : Type} (cfg : SafetyConfig)
    (env : Env) (op : BulkOperation T F R E) (options : SafetyOptions) :
    (∀ p ∈ (Safety.protect cfg env op options).prompts,
      p = { message := Safety.protectPromptMessage op.name
              (Safety.gatedItems op.items options.limit).length,
            answerDefault := false }) ∧
    ((Safety.protect cfg env op options).prompts ≠ [] → env.promptAnswer = false →
      (Safety.protect cfg env op options).executeCalls = [] ∧
      (Safety.protect cfg env op options).result = Except.ok none ∧
      (env.mode = OutputMode.json →
        (Safety.protect cfg env op options).events.getLast? =
          some (OutEvent.jsonOut
            { success := true, error := none, data := EnvData.cancelledData true,
              metaCount := some 0, metaCode := none }))) := by
  simp only [Safety.protect]
  split
  case isTrue h0 => exact ⟨by simp, fun hp => absurd rfl hp⟩
  case isFalse h0 =>
    split
    case isTrue h => exact ⟨by simp, fun hp => absurd rfl hp⟩
    case isFalse h =>
      split
      case isTrue hsp =>
        split
        case isTrue hcp => exact ⟨by simp, fun hp => absurd rfl hp⟩
        case isFalse hcp =>
          split
          case isTrue hans =>
            refine ⟨by simp, fun _ hans' => ⟨rfl, rfl, fun hjson => ?_⟩⟩
            dsimp only
            rw [Safety.emitCancelled, if_pos hjson]
            exact List.getLast?_concat _
          case isFalse hans =>
            rw [executeStage_prompts]
            refine ⟨by simp, fun _ hans' => ?_⟩
            rw [hans'] at hans
            simp at hans
      case isFalse hsp =>
        rw [executeStage_prompts]
        exact ⟨by simp, fun hp => absurd rfl hp⟩

theorem protect_prompt_message_decline_cancels_witness :
    (Safety.protect ⟨10, 5⟩ ⟨OutputMode.json, true, none, false⟩ tenItemOp
      { dryRun := false, limit := none, sample := none, confirm := false }).prompts ≠ [] ∧
    (Safety.protect ⟨10, 5⟩ ⟨OutputMode.json, true, none, false⟩ tenItemOp
      { dryRun := false, limit := none, sample := none, confirm := false }).executeCalls = [] ∧
    (Safety.protect ⟨10, 5⟩ ⟨OutputMode.json, true, none, false⟩ tenItemOp
      { dryRun := false, limit := none, sample := none, confirm := false }).result =
      Except.ok none ∧
    (Safety.protect ⟨10, 5⟩ ⟨OutputMode.json, true, none, false⟩ tenItemOp
      { dryRun := false, limit := none, sample := none, confirm := false }).events.getLast? =
      some (OutEvent.jsonOut
        { success := true, error := none, data := EnvData.cancelledData true,
          metaCount := some 0, metaCode := none }) := by
  have h := (protect_prompt_message_decline_cancels ⟨10, 5⟩
    ⟨OutputMode.json, true, none, false⟩ tenItemOp
    { dryRun := false, limit := none, sample := none, confirm := false }).2
    (by decide) rfl
  exact ⟨by decide, h.1, h.2.1, h.2.2 rfl⟩

/-- Claim C7: sample-size resolution returns 0 for an empty (post-limit)
item set, the default size capped by the item count when the request is
omitted or non-positive, and the requested size capped by the item
count otherwise. -/
theorem resolveSampleSize_resolution (cfg : SafetyConfig) (requested : Option Int)
    (total : Nat) :
    (total = 0 → Safety.resolveSampleSize cfg requested total = 0) ∧
    ((requested = none ∨ ∃ r, requested = some r ∧ r ≤ 0) → 0 < total →
      Safety.resolveSampleSize cfg requested total = min cfg.defaultSampleSize total) ∧
    (∀ r : Int, requested = some r → 0 < r → 0 < total →
      Safety.resolveSampleSize cfg requested total = min r.toNat total) := by
  unfold Safety.resolveSampleSize
  refine ⟨fun h => by simp [h], ?_, ?_⟩
  · rintro (rfl | ⟨r, rfl, hr⟩) hpos
    · simp [Nat.pos_iff_ne_zero.mp hpos]
    · simp [Nat.pos_iff_ne_zero.mp hpos, hr]
  · rintro r rfl hr hpos
    rw [if_neg (Nat.pos_iff_ne_zero.mp hpos)]
    dsimp only
    rw [if_neg (by omega : ¬ r ≤ 0)]

theorem resolveSampleSize_resolution_witness :
    (0 : Int) < 2 ∧ 0 < 10 ∧
    Safety.resolveSampleSize ⟨10, 5⟩ (some 2) 10 = min (2 : Int).toNat 10 :=
  ⟨by decide, by decide,
    (resolveSampleSize_resolution ⟨10, 5⟩ (some 2) 10).2.2 2 rfl (by decide) (by decide)⟩

/-- Claim C9: when `execute` throws, `protect` stops the progress
indicator with a failure marker and rethrows the very same error; it
never converts the failure into a `null` or normal return. -/
theorem protect_rethrows_execute_error {T F R E : Type} (cfg : SafetyConfig) (env : Env)
    (op : BulkOperation T F R E) (options : SafetyOptions) (xs : List T) (e : E)
    (hex : (Safety.protect cfg env op options).executeCalls = [xs])
    (herr : op.execute xs = Except.error e) :
    (Safety.protect cfg env op options).result = Except.error e ∧
    (Safety.protect cfg env op options).events.getLast? =
      some (OutEvent.failSpinner (Safety.failedMessage op.name)) := by
  revert hex
  simp only [Safety.protect]
  split
  case isTrue h0 => intro hex; cases hex
  case isFalse h0 =>
    split
    case isTrue h => intro hex; cases hex
    case isFalse h =>
      split
      case isTrue hsp =>
        split
        case isTrue hcp => intro hex; cases hex
        case isFalse hcp =>
          split
          case isTrue hans => intro hex; cases hex
          case isFalse hans =>
            intro hex
            rw [executeStage_executeCalls] at hex
            have hxs : Safety.gatedItems op.items options.limit = xs := by
              simpa using hex
            rw [← hxs] at herr
            obtain ⟨hres, hev⟩ := executeStage_error op _ _ _ _ e herr
            refine ⟨hres, ?_⟩
            rw [hev]
            exact List.getLast?_concat _
      case isFalse hsp =>
        intro hex
        rw [executeStage_executeCalls] at hex
        have hxs : Safety.gatedItems op.items options.limit = xs := by
          simpa using hex
        rw [← hxs] at herr
        obtain ⟨hres, hev⟩ := executeStage_error op _ _ _ _ e herr
        refine ⟨hres, ?_⟩
        rw [hev]
        exact List.getLast?_concat _

theorem protect_rethrows_execute_error_witness :
    (Safety.protect ⟨10, 5⟩ ⟨OutputMode.normal, true, none, true⟩ failingOp
      { dryRun := false, limit := none, sample := none, confirm := true }).result =
      Except.error "network down" ∧
    (Safety.protect ⟨10, 5⟩ ⟨OutputMode.normal, true, none, true⟩ failingOp
      { dryRun := false, limit := none, sample := none, confirm := true }).events.getLast? =
      some (OutEvent.failSpinner (Safety.failedMessage "demo")) :=
  protect_rethrows_execute_error ⟨10, 5⟩ ⟨OutputMode.normal, true, none, true⟩ failingOp
    { dryRun := false, limit := none, sample := none, confirm := true } [1, 2, 3]
    "network down" (by decide) rfl

/-- Claim C10: an empty item list makes `protect` return `null`; in
JSON mode the emitted envelope is a success with
`data = \x7bdryRun: true, action, wouldAffect: 0, preview: []\x7d` and
`meta.count = 0` even when `dryRun` was not requested, and in quiet
mode nothing is emitted at all. -/
theorem protect_empty_items_noop {T F R E : Type} (cfg : SafetyConfig) (env : Env)
    (op : BulkOperation T F R E) (options : SafetyOptions) (hempty : op.items = []) :
    (Safety.protect cfg env op options).result = Except.ok none ∧
    (Safety.protect cfg env op options).executeCalls = [] ∧
    (Safety.protect cfg env op options).prompts = [] ∧
    (env.mode = OutputMode.json →
      (Safety.protect cfg env op options).events =
        [OutEvent.jsonOut
          { success := true, error := none,
            data := EnvData.dryRunData true op.name 0 [],
            metaCount := some 0, metaCode := none }]) ∧
    (env.mode = OutputMode.quiet → (Safety.protect cfg env op options).events = []) := by
  simp only [Safety.protect, hempty, List.length_nil, if_pos rfl]
  refine ⟨rfl, rfl, rfl, fun hj => ?_, fun hq => ?_⟩
  · simp [Safety.emitNoWork, hj]
  · simp [Safety.emitNoWork, hq]

theorem protect_empty_items_noop_witness :
    (Safety.protect ⟨10, 5⟩ ⟨OutputMode.json, true, none, true⟩ emptyOp
      { dryRun := false, limit := none, sample := none, confirm := false }).result =
      Except.ok none ∧
    (Safety.protect ⟨10, 5⟩ ⟨OutputMode.json, true, none, true⟩ emptyOp
      { dryRun := false, limit := none, sample := none, confirm := false }).events =
      [OutEvent.jsonOut
        { success := true, error := none,
          data := EnvData.dryRunData true "demo" 0 [],
          metaCount := some 0, metaCode := none }] := by
  have h := protect_empty_items_noop ⟨10, 5⟩ ⟨OutputMode.json, true, none, true⟩ emptyOp
    { dryRun := false, limit := none, sample := none, confirm := false } rfl
  exact ⟨h.1, h.2.2.2.1 rfl⟩

/-- Claim C2 (counterexample): on a ten-item operation with
`sample = 2` and `limit = 1`, the preview table renders one row, not
two, and `operation.preview` receives one sample item, not two — the
sample is capped by the post-limit item count, so it is not independent
of `limit`. -/
theorem protect_sample_two_limit_one_cex :
    (Safety.protect ⟨10, 5⟩ ⟨OutputMode.normal, true, none, true⟩ tenItemOp
      { dryRun := true, limit := some 1, sample := some 2, confirm := false }).events =
      [OutEvent.info (Safety.limitingMessage "demo" 1 10),
       OutEvent.info (Safety.previewHeader "demo" 1),
       OutEvent.table [(0, 0)] 1,
       OutEvent.info "Dry run complete. No changes were made."] ∧
    (Safety.protect ⟨10, 5⟩ ⟨OutputMode.normal, true, none, true⟩ tenItemOp
      { dryRun := true, limit := some 1, sample := some 2, confirm := false }).previewCalls =
      [[0]] :=
  ⟨rfl, rfl⟩

/-- Claim C2 (amended): on a ten-item operation with `sample = 2`, in
human output mode, every rendered preview table has exactly
`min 2 c` rows and total `c`, such a table is rendered, and every
`operation.preview` call receives exactly `min 2 c` sample items,
where `c` is the post-limit item count; `c` (and hence the row count
`2`) is independent of `limit` only when `limit` is unset, non-positive,
or at least `2`. -/
theorem protect_sample_rows_min_of_limit {T F R E : Type} (cfg : SafetyConfig) (env : Env)
    (op : BulkOperation T F R E) (options : SafetyOptions)
    (h10 : op.items.length = 10) (hs : options.sample = some 2)
    (hn : env.mode = OutputMode.normal) :
    (∀ rows total, OutEvent.table rows total ∈ (Safety.protect cfg env op options).events →
      rows.length = min 2 (Safety.gatedItems op.items options.limit).length ∧
      total = (Safety.gatedItems op.items options.limit).length) ∧
    (∃ rows, rows.length = min 2 (Safety.gatedItems op.items options.limit).length ∧
      OutEvent.table rows (Safety.gatedItems op.items options.limit).length ∈
        (Safety.protect cfg env op options).events) ∧
    (∀ xs ∈ (Safety.protect cfg env op options).previewCalls,
      xs.length = min 2 (Safety.gatedItems op.items options.limit).length) := by
  have hc : 0 < (Safety.gatedItems op.items options.limit).length :=
    gatedItems_length_pos _ _ (by omega)
  have hss : Safety.resolveSampleSize cfg options.sample
      (Safety.gatedItems op.items options.limit).length =
      min 2 (Safety.gatedItems op.items options.limit).length := by
    rw [hs]
    exact resolveSampleSize_two cfg _ hc
  have hsi : ((Safety.gatedItems op.items options.limit).take
      (Safety.resolveSampleSize cfg options.sample
        (Safety.gatedItems op.items options.limit).length)).length =
      min 2 (Safety.gatedItems op.items options.limit).length := by
    rw [hss, List.length_take]
    omega
  have hfs : (Safety.formatSample op ((Safety.gatedItems op.items options.limit).take
      (Safety.resolveSampleSize cfg options.sample
        (Safety.gatedItems op.items options.limit).length))).length =
      min 2 (Safety.gatedItems op.items options.limit).length := by
    rw [formatSample_length]
    exact hsi
  have hfspos : 0 < (Safety.formatSample op ((Safety.gatedItems op.items options.limit).take
      (Safety.resolveSampleSize cfg options.sample
        (Safety.gatedItems op.items options.limit).length))).length := by
    rw [hfs]
    omega
  have tablemem : ∀ rows total,
      OutEvent.table rows total ∈
        (Safety.limitEvents op.name options.limit op.items.length ++
          (Safety.renderPreview env op (Safety.gatedItems op.items options.limit).length
            ((Safety.gatedItems op.items options.limit).take
              (Safety.resolveSampleSize cfg options.sample
                (Safety.gatedItems op.items options.limit).length))
            (Safety.formatSample op ((Safety.gatedItems op.items options.limit).take
              (Safety.resolveSampleSize cfg options.sample
                (Safety.gatedItems op.items options.limit).length)))).1) →
      rows.length = min 2 (Safety.gatedItems op.items options.limit).length ∧
      total = (Safety.gatedItems op.items options.limit).length := by
    intro rows total h
    rcases List.mem_append.mp h with h | h
    · exact absurd h (limitEvents_no_table _ _ _ _ _)
    · obtain ⟨h1, h2⟩ := renderPreview_table_char _ _ _ _ _ _ _ h
      subst h1
      exact ⟨hfs, h2⟩
  have exmem : OutEvent.table
      (Safety.formatSample op ((Safety.gatedItems op.items options.limit).take
        (Safety.resolveSampleSize cfg options.sample
          (Safety.gatedItems op.items options.limit).length)))
      (Safety.gatedItems op.items options.limit).length ∈
      Safety.limitEvents op.name options.limit op.items.length ++
        (Safety.renderPreview env op (Safety.gatedItems op.items options.limit).length
          ((Safety.gatedItems op.items options.limit).take
            (Safety.resolveSampleSize cfg options.sample
              (Safety.gatedItems op.items options.limit).length))
          (Safety.formatSample op ((Safety.gatedItems op.items options.limit).take
            (Safety.resolveSampleSize cfg options.sample
              (Safety.gatedItems op.items options.limit).length)))).1 :=
    List.mem_append.mpr (Or.inr (renderPreview_table_exists _ _ _ _ _ hn hfspos))
  have pvcalls : ∀ xs, xs ∈
      (Safety.renderPreview env op (Safety.gatedItems op.items options.limit).length
        ((Safety.gatedItems op.items options.limit).take
          (Safety.resolveSampleSize cfg options.sample
            (Safety.gatedItems op.items options.limit).length))
        (Safety.formatSample op ((Safety.gatedItems op.items options.limit).take
          (Safety.resolveSampleSize cfg options.sample
            (Safety.gatedItems op.items options.limit).length)))).2 →
      xs.length = min 2 (Safety.gatedItems op.items options.limit).length := by
    intro xs h
    rw [renderPreview_previewCalls_char _ _ _ _ _ _ h]
    exact hsi
  simp only [Safety.protect]
  split
  case isTrue h0 => omega
  case isFalse h0 =>
    split
    case isTrue hdr =>
      refine ⟨?_, ⟨_, hfs, ?_⟩, pvcalls⟩
      · intro rows total h
        rcases List.mem_append.mp h with h | h
        · exact tablemem rows total h
        · rw [Safety.emitDryRun, if_neg (by rw [hn]; simp)] at h
          simp at h
      · exact List.mem_append.mpr (Or.inl exmem)
    case isFalse hdr =>
      split
      case isTrue hsp =>
        split
        case isTrue hcp =>
          refine ⟨?_, ⟨_, hfs, ?_⟩, pvcalls⟩
          · intro rows total h
            rcases List.mem_append.mp h with h | h
            · exact tablemem rows total h
            · rw [Safety.emitPromptUnavailable, if_neg (by rw [hn]; simp)] at h
              simp at h
          · exact List.mem_append.mpr (Or.inl exmem)
        case isFalse hcp =>
          split
          case isTrue hans =>
            refine ⟨?_, ⟨_, hfs, ?_⟩, pvcalls⟩
            · intro rows total h
              rcases List.mem_append.mp h with h | h
              · exact tablemem rows total h
              · rw [Safety.emitCancelled, if_neg (by rw [hn]; simp)] at h
                simp at h
            · exact List.mem_append.mpr (Or.inl exmem)
          case isFalse hans =>
            rw [executeStage_previewCalls]
            refine ⟨?_, ⟨_, hfs, ?_⟩, pvcalls⟩
            · intro rows total h
              exact tablemem rows total (executeStage_table_mem _ _ _ _ _ _ _ h)
            · exact executeStage_mem_of_mem_ev _ _ _ _ _ _ exmem
      case isFalse hsp =>
        rw [executeStage_previewCalls]
        refine ⟨?_, ⟨_, hfs, ?_⟩, pvcalls⟩
        · intro rows total h
          exact tablemem rows total (executeStage_table_mem _ _ _ _ _ _ _ h)
        · exact executeStage_mem_of_mem_ev _ _ _ _ _ _ exmem

theorem protect_sample_rows_min_of_limit_witness :
    tenItemOp.items.length = 10 ∧
    ([0, 1] : List Nat).length =
      min 2 (Safety.gatedItems tenItemOp.items (some 5)).length :=
  ⟨by decide,
    (protect_sample_rows_min_of_limit ⟨10, 5⟩ ⟨OutputMode.normal, true, none, true⟩
      tenItemOp { dryRun := true, limit := some 5, sample := some 2, confirm := false }
      (by decide) rfl rfl).2.2 [0, 1] (by decide)⟩

/-! ## Email normalization lemmas and claim C8 -/


theorem char_toNat_inj {c d : Char} (h : c.toNat = d.toNat) : c = d :=
  Char.ext (UInt32.toNat.inj h)

theorem toNat_toLower (c : Char) :
    (Char.toLower c).toNat =
      if 65 ≤ c.toNat ∧ c.toNat ≤ 90 then c.toNat + 32 else c.toNat := by
  unfold Char.toLower
  split
  next h =>
    rw [if_pos h]
    rw [Char.ofNat, dif_pos (Or.inl (by omega : c.toNat + 32 < 55296))]
    rfl
  next h =>
    rw [if_neg h]

theorem isWhitespace_toNat (c : Char) :
    c.isWhitespace = true ↔
      (c.toNat = 32 ∨ c.toNat = 9 ∨ c.toNat = 13 ∨ c.toNat = 10) := by
  unfold Char.isWhitespace
  simp only [Bool.or_eq_true, decide_eq_true_eq]
  constructor
  · rintro (((h | h) | h) | h) <;> subst h <;> simp
  · rintro (h | h | h | h)
    · exact Or.inl (Or.inl (Or.inl (char_toNat_inj h)))
    · exact Or.inl (Or.inl (Or.inr (char_toNat_inj h)))
    · exact Or.inl (Or.inr (char_toNat_inj h))
    · exact Or.inr (char_toNat_inj h)

theorem toLower_ws {c : Char} (h : c.isWhitespace = false) :
    (Char.toLower c).isWhitespace = false := by
  have ht := toNat_toLower c
  by_contra hw
  rw [Bool.not_eq_false] at hw
  rw [isWhitespace_toNat] at hw
  have hc : ¬ c.isWhitespace = true := by simp [h]
  rw [isWhitespace_toNat] at hc
  split at ht <;> omega

theorem toLower_at {c : Char} (h : c ≠ '@') : Char.toLower c ≠ '@' := by
  intro he
  have ht := toNat_toLower c
  rw [he] at ht
  have h64 : ('@').toNat = 64 := rfl
  rw [h64] at ht
  split at ht
  · omega
  · exact h (char_toNat_inj (by omega))

theorem toLower_idem (c : Char) : Char.toLower (Char.toLower c) = Char.toLower c := by
  apply char_toNat_inj
  have h1 := toNat_toLower c
  have h2 := toNat_toLower (Char.toLower c)
  split at h1 <;> split at h2 <;> omega

theorem dropWhile_ws_eq_self {l : List Char} (h : ∀ c ∈ l, c.isWhitespace = false) :
    l.dropWhile Char.isWhitespace = l := by
  cases l with
  | nil => rfl
  | cons a as =>
    rw [List.dropWhile_cons_of_neg]
    simp [h a (by simp)]

theorem trimChars_eq_self {l : List Char} (h : ∀ c ∈ l, c.isWhitespace = false) :
    trimChars l = l := by
  unfold trimChars
  rw [dropWhile_ws_eq_self h]
  rw [dropWhile_ws_eq_self (by intro c hc; exact h c (List.mem_reverse.mp hc))]
  exact List.reverse_reverse l

theorem takeWhile_dropWhile_middle {α : Type} (p : α → Bool) (xs ys : List α) (a : α)
    (hxs : ∀ x ∈ xs, p x = true) (ha : p a = false) :
    (xs ++ a :: ys).takeWhile p = xs ∧ (xs ++ a :: ys).dropWhile p = a :: ys := by
  induction xs with
  | nil =>
    simp only [List.nil_append]
    rw [List.takeWhile_cons_of_neg (by simp [ha]), List.dropWhile_cons_of_neg (by simp [ha])]
    exact ⟨rfl, rfl⟩
  | cons x xs ih =>
    have hx : p x = true := hxs x (by simp)
    obtain ⟨h1, h2⟩ := ih (fun y hy => hxs y (by simp [hy]))
    simp only [List.cons_append]
    rw [List.takeWhile_cons_of_pos (by simp [hx]), List.dropWhile_cons_of_pos (by simp [hx])]
    exact ⟨by rw [h1], h2⟩



theorem dropWhile_head_false {α : Type} (p : α → Bool) :
    ∀ (l : List α) (a : α) (rest : List α), l.dropWhile p = a :: rest → p a = false
  | [], a, rest, h => by cases h
  | c :: cs, a, rest, h => by
    by_cases hp : p c = true
    · rw [List.dropWhile_cons_of_pos hp] at h
      exact dropWhile_head_false p cs a rest h
    · rw [List.dropWhile_cons_of_neg hp] at h
      injection h with h1 _
      subst h1
      simpa using hp

theorem isValidEmailChars_iff (l : List Char) :
    isValidEmailChars l = true ↔
      ∃ loc dom, l = loc ++ '@' :: dom ∧ loc ≠ [] ∧
        (∀ c ∈ loc, c.isWhitespace = false ∧ c ≠ '@') ∧
        (∀ c ∈ dom, c.isWhitespace = false ∧ c ≠ '@') ∧
        '.' ∈ (dom.drop 1).dropLast := by
  unfold isValidEmailChars
  rw [List.span_eq_take_drop]
  dsimp only
  constructor
  · intro h
    cases hdw : l.dropWhile (fun c => decide (c ≠ '@')) with
    | nil => rw [hdw] at h; cases h
    | cons a dom =>
      rw [hdw] at h
      have ha : a = '@' := by
        have := dropWhile_head_false _ l a dom hdw
        simpa using this
      subst ha
      simp only [Bool.and_eq_true, List.all_eq_true, Bool.not_eq_true,
        Bool.not_eq_true', List.isEmpty_eq_false, decide_eq_true_eq] at h
      obtain ⟨⟨⟨h1, h2⟩, h3⟩, h4⟩ := h
      refine ⟨l.takeWhile (fun c => decide (c ≠ '@')), dom, ?_, h1, ?_, ?_, h4⟩
      · rw [← hdw, List.takeWhile_append_dropWhile]
      · intro c hc
        exact ⟨h2 c hc, by simpa using List.mem_takeWhile_imp hc⟩
      · intro c hc
        obtain ⟨hw, hat⟩ := h3 c hc
        exact ⟨hw, hat⟩
  · rintro ⟨loc, dom, rfl, hne, hloc, hdom, hdot⟩
    obtain ⟨htw, hdw⟩ := takeWhile_dropWhile_middle (fun c => decide (c ≠ '@')) loc dom '@'
      (fun x hx => by simpa using (hloc x hx).2) (by simp)
    rw [htw, hdw]
    simp only [Bool.and_eq_true, List.all_eq_true, Bool.not_eq_true',
      List.isEmpty_eq_false, decide_eq_true_eq]
    exact ⟨⟨⟨hne, fun c hc => (hloc c hc).1⟩,
      fun c hc => ⟨(hdom c hc).1, (hdom c hc).2⟩⟩, hdot⟩



theorem isValidEmailChars_no_ws {l : List Char} (h : isValidEmailChars l = true) :
    ∀ c ∈ l, c.isWhitespace = false := by
  rw [isValidEmailChars_iff] at h
  obtain ⟨loc, dom, rfl, _, hloc, hdom, _⟩ := h
  intro c hc
  rcases List.mem_append.mp hc with hc | hc
  · exact (hloc c hc).1
  · rcases List.mem_cons.mp hc with rfl | hc
    · decide
    · exact (hdom c hc).1

theorem isValidEmailChars_lower {l : List Char} (h : isValidEmailChars l = true) :
    isValidEmailChars (lowerChars l) = true := by
  rw [isValidEmailChars_iff] at h ⊢
  obtain ⟨loc, dom, rfl, hne, hloc, hdom, hdot⟩ := h
  refine ⟨lowerChars loc, lowerChars dom, ?_, ?_, ?_, ?_, ?_⟩
  · unfold lowerChars
    rw [List.map_append, List.map_cons]
    rw [show Char.toLower '@' = '@' by decide]
  · simpa [lowerChars] using hne
  · intro c hc
    obtain ⟨y, hy, rfl⟩ := List.mem_map.mp hc
    exact ⟨toLower_ws (hloc y hy).1, toLower_at (hloc y hy).2⟩
  · intro c hc
    obtain ⟨y, hy, rfl⟩ := List.mem_map.mp hc
    exact ⟨toLower_ws (hdom y hy).1, toLower_at (hdom y hy).2⟩
  · unfold lowerChars
    rw [← List.map_drop, ← List.map_dropLast]
    exact List.mem_map.mpr ⟨'.', hdot, by decide⟩

theorem normalizeEmail_mk (r : String) :
    normalizeEmail r = String.mk (lowerChars (trimChars r.data)) := rfl

theorem normalizeEmail_preserves {r : String} (h : isValidEmail r = true) :
    isValidEmail (normalizeEmail r) = true ∧
      normalizeEmail (normalizeEmail r) = normalizeEmail r := by
  unfold isValidEmail at h
  have hws := isValidEmailChars_no_ws h
  have htrim : trimChars r.data = r.data := trimChars_eq_self hws
  have hdata : normalizeEmail r = String.mk (lowerChars r.data) := by
    rw [normalizeEmail_mk, htrim]
  have hlow : isValidEmailChars (lowerChars r.data) = true := isValidEmailChars_lower h
  have hlowws : ∀ c ∈ lowerChars r.data, c.isWhitespace = false :=
    isValidEmailChars_no_ws hlow
  have hll : lowerChars (lowerChars r.data) = lowerChars r.data := by
    unfold lowerChars
    rw [List.map_map]
    exact List.map_congr_left (fun c _ => toLower_idem c)
  constructor
  · rw [hdata]
    exact hlow
  · rw [hdata, normalizeEmail_mk, show (String.mk (lowerChars r.data)).data =
      lowerChars r.data from rfl, trimChars_eq_self hlowws, hll]



theorem addEmail_inv {emails : List String} {e : String}
    (hNd : emails.Nodup)
    (hP : ∀ x ∈ emails, isValidEmail x = true ∧ normalizeEmail x = x)
    (he : isValidEmail e = true ∧ normalizeEmail e = e) :
    (addEmail emails e).Nodup ∧
      ∀ x ∈ addEmail emails e, isValidEmail x = true ∧ normalizeEmail x = x := by
  unfold addEmail
  split
  · exact ⟨hNd, hP⟩
  next hmem =>
    constructor
    · rw [List.nodup_append]
      exact ⟨hNd, List.nodup_singleton e,
        fun a ha hb => hmem ((List.mem_singleton.mp hb) ▸ ha)⟩
    · intro x hx
      rcases List.mem_append.mp hx with hx | hx
      · exact hP x hx
      · rw [List.mem_singleton.mp hx]
        exact he

theorem foldl_email_inv {α : Type}
    (step : (List String × List CSVErrorDetail) → α → (List String × List CSVErrorDetail))
    (hstep : ∀ st a,
      (st.1.Nodup ∧ ∀ x ∈ st.1, isValidEmail x = true ∧ normalizeEmail x = x) →
      ((step st a).1.Nodup ∧
        ∀ x ∈ (step st a).1, isValidEmail x = true ∧ normalizeEmail x = x)) :
    ∀ (l : List α) st,
      (st.1.Nodup ∧ ∀ x ∈ st.1, isValidEmail x = true ∧ normalizeEmail x = x) →
      ((l.foldl step st).1.Nodup ∧
        ∀ x ∈ (l.foldl step st).1, isValidEmail x = true ∧ normalizeEmail x = x) := by
  intro l
  induction l with
  | nil => exact fun st h => h
  | cons a as ih => exact fun st h => ih _ (hstep st a h)

theorem csvEmailStep_inv (emailKey : String) (st : List String × List CSVErrorDetail)
    (p : Nat × List (String × String))
    (h : st.1.Nodup ∧ ∀ x ∈ st.1, isValidEmail x = true ∧ normalizeEmail x = x) :
    (csvEmailStep emailKey st p).1.Nodup ∧
      ∀ x ∈ (csvEmailStep emailKey st p).1,
        isValidEmail x = true ∧ normalizeEmail x = x := by
  simp only [csvEmailStep]
  split
  · exact h
  · split
    · exact h
    next hv =>
      have hv' : isValidEmail (trimStr ((rowGet p.2 emailKey).getD "")) = true := by
        simpa using hv
      exact addEmail_inv h.1 h.2 (normalizeEmail_preserves hv')

theorem lineEmailStep_inv (st : List String × List CSVErrorDetail) (p : Nat × List Char)
    (h : st.1.Nodup ∧ ∀ x ∈ st.1, isValidEmail x = true ∧ normalizeEmail x = x) :
    (lineEmailStep st p).1.Nodup ∧
      ∀ x ∈ (lineEmailStep st p).1, isValidEmail x = true ∧ normalizeEmail x = x := by
  simp only [lineEmailStep]
  split
  · exact h
  · split
    · exact h
    next hv =>
      have hv' : isValidEmail (String.mk (trimChars p.2)) = true := by
        simpa [isValidEmail] using hv
      exact addEmail_inv h.1 h.2 (normalizeEmail_preserves hv')

theorem parseEmailListWith_inv (csv : Option EmailCsvTable) (content : String) :
    (parseEmailListWith csv content).emails.Nodup ∧
      ∀ e ∈ (parseEmailListWith csv content).emails,
        isValidEmail e = true ∧ normalizeEmail e = e := by
  unfold parseEmailListWith
  cases csv with
  | some t =>
    dsimp only
    exact foldl_email_inv (csvEmailStep t.emailKey) (csvEmailStep_inv t.emailKey)
      (t.rows.enum) ([], []) ⟨List.nodup_nil, by simp⟩
  | none =>
    dsimp only
    exact foldl_email_inv lineEmailStep lineEmailStep_inv
      ((splitLinesJS content.data).enum) ([], []) ⟨List.nodup_nil, by simp⟩

theorem resolveEmailTargets_inv (emailOpt fileContent : Option String)
    (emails : List String) (errors : List CSVErrorDetail)
    (h : resolveEmailTargets emailOpt fileContent =
      ResolveOutcome.resolved emails errors) :
    emails.Nodup ∧ ∀ e ∈ emails, isValidEmail e = true ∧ normalizeEmail e = e := by
  unfold resolveEmailTargets at h
  have hfile : ∀ (fc : Option String),
      resolveFileTarget fc = ResolveOutcome.resolved emails errors →
      emails.Nodup ∧ ∀ e ∈ emails, isValidEmail e = true ∧ normalizeEmail e = e := by
    intro fc hf
    unfold resolveFileTarget at hf
    cases fc with
    | none => cases hf
    | some content =>
      dsimp only at hf
      injection hf with h1 h2
      subst h1
      exact (parseEmailListWith_inv (tryParseEmailCSV content) content)
  cases emailOpt with
  | none => exact hfile fileContent h
  | some e =>
    dsimp only at h
    split at h
    · exact hfile fileContent h
    · split at h
      · cases h
      · split at h
        · cases h
        next hv =>
          injection h with h1 h2
          subst h1
          have hv' : isValidEmail (trimStr e) = true := by simpa using hv
          refine ⟨List.nodup_singleton _, ?_⟩
          intro x hx
          rw [List.mem_singleton.mp hx]
          exact normalizeEmail_preserves hv'



/-! ## First-seen-order lemmas -/


theorem mem_addEmail (acc : List String) (e x : String) :
    x ∈ addEmail acc e ↔ x ∈ acc ∨ x = e := by
  unfold addEmail
  split
  next h =>
    constructor
    · exact Or.inl
    · rintro (hx | rfl)
      · exact hx
      · exact h
  next h => simp

theorem foldl_addEmail_mem : ∀ (l acc : List String) (x : String),
    x ∈ l.foldl addEmail acc ↔ x ∈ acc ∨ x ∈ l := by
  intro l
  induction l with
  | nil => simp
  | cons e rest ih =>
    intro acc x
    rw [List.foldl_cons, ih, mem_addEmail]
    simp only [List.mem_cons]
    tauto

theorem foldl_addEmail_shape : ∀ (l acc : List String),
    ∃ s, l.foldl addEmail acc = acc ++ s ∧ s.Sublist l := by
  intro l
  induction l with
  | nil => exact fun acc => ⟨[], by simp, List.nil_sublist []⟩
  | cons e rest ih =>
    intro acc
    rw [List.foldl_cons]
    by_cases he : e ∈ acc
    · rw [show addEmail acc e = acc from by unfold addEmail; rw [if_pos he]]
      obtain ⟨s, h1, h2⟩ := ih acc
      exact ⟨s, h1, h2.cons e⟩
    · rw [show addEmail acc e = acc ++ [e] from by unfold addEmail; rw [if_neg he]]
      obtain ⟨s, h1, h2⟩ := ih (acc ++ [e])
      exact ⟨e :: s, by rw [h1, List.append_assoc]; rfl, h2.cons₂ e⟩

theorem dedupFirstSeen_sublist (l : List String) : (dedupFirstSeen l).Sublist l := by
  obtain ⟨s, h1, h2⟩ := foldl_addEmail_shape l []
  unfold dedupFirstSeen
  rw [h1]
  simpa using h2

theorem mem_dedupFirstSeen (l : List String) (x : String) :
    x ∈ dedupFirstSeen l ↔ x ∈ l := by
  unfold dedupFirstSeen
  rw [foldl_addEmail_mem]
  simp

theorem foldl_addEmail_pairwise :
    ∀ (rest done acc : List String),
      (∀ x, x ∈ acc ↔ x ∈ done) →
      acc.Pairwise (fun a b => done.indexOf a < done.indexOf b) →
      (rest.foldl addEmail acc).Pairwise
        (fun a b => (done ++ rest).indexOf a < (done ++ rest).indexOf b) := by
  intro rest
  induction rest with
  | nil =>
    intro done acc hmem hpw
    simpa using hpw
  | cons e rest ih =>
    intro done acc hmem hpw
    rw [List.foldl_cons, show done ++ e :: rest = (done ++ [e]) ++ rest by simp]
    apply ih (done ++ [e]) (addEmail acc e)
    · intro x
      rw [mem_addEmail, hmem]
      simp
    · unfold addEmail
      split
      next hin =>
        refine hpw.imp_of_mem ?_
        intro a b ha hb hab
        rw [List.indexOf_append_of_mem ((hmem a).mp ha),
          List.indexOf_append_of_mem ((hmem b).mp hb)]
        exact hab
      next hin =>
        rw [List.pairwise_append]
        refine ⟨?_, List.pairwise_singleton _ _, ?_⟩
        · refine hpw.imp_of_mem ?_
          intro a b ha hb hab
          rw [List.indexOf_append_of_mem ((hmem a).mp ha),
            List.indexOf_append_of_mem ((hmem b).mp hb)]
          exact hab
        · intro a ha b hb
          rw [List.mem_singleton] at hb
          subst hb
          have hadon : a ∈ done := (hmem a).mp ha
          have hedon : b ∉ done := fun hh => hin ((hmem b).mpr hh)
          rw [List.indexOf_append_of_mem hadon, List.indexOf_append_of_not_mem hedon]
          have hlt : done.indexOf a < done.length := List.indexOf_lt_length.mpr hadon
          omega

theorem dedupFirstSeen_pairwise (l : List String) :
    (dedupFirstSeen l).Pairwise (fun a b => l.indexOf a < l.indexOf b) := by
  have h := foldl_addEmail_pairwise l [] [] (by simp) (List.Pairwise.nil)
  simpa using h



theorem csvFold_fst (k : String) :
    ∀ (l : List (Nat × List (String × String))) (st : List String × List CSVErrorDetail),
      (l.foldl (csvEmailStep k) st).1 =
        (csvEmailsRaw k (l.map Prod.snd)).foldl addEmail st.1 := by
  intro l
  induction l with
  | nil => intro st; rfl
  | cons p rest ih =>
    intro st
    rw [List.foldl_cons, List.map_cons]
    simp only [csvEmailsRaw, List.filterMap_cons, csvEmailStep]
    by_cases h1 : trimStr ((rowGet p.2 k).getD "") = ""
    · simp only [if_pos h1]
      rw [ih]
      rfl
    · simp only [if_neg h1]
      by_cases h2 : (!isValidEmail (trimStr ((rowGet p.2 k).getD ""))) = true
      · simp only [if_pos h2]
        rw [ih]
        rfl
      · simp only [if_neg h2]
        rw [ih, List.foldl_cons]
        rfl

theorem lineFold_fst :
    ∀ (l : List (Nat × List Char)) (st : List String × List CSVErrorDetail),
      (l.foldl lineEmailStep st).1 =
        (lineEmailsRaw (l.map Prod.snd)).foldl addEmail st.1 := by
  intro l
  induction l with
  | nil => intro st; rfl
  | cons p rest ih =>
    intro st
    rw [List.foldl_cons, List.map_cons]
    simp only [lineEmailsRaw, List.filterMap_cons, lineEmailStep]
    by_cases h1 : (trimChars p.2).isEmpty = true
    · simp only [if_pos h1]
      rw [ih]
      rfl
    · simp only [if_neg h1]
      by_cases h2 : (!isValidEmailChars (trimChars p.2)) = true
      · simp only [if_pos h2]
        rw [ih]
        rfl
      · simp only [if_neg h2]
        rw [ih, List.foldl_cons]
        rfl

theorem enum_map_snd_eq {α : Type} (l : List α) : l.enum.map Prod.snd = l := by
  rw [List.enum_eq_enumFrom]
  exact List.enumFrom_map_snd 0 l

theorem parseEmailListWith_order (csv : Option EmailCsvTable) (content : String) :
    (parseEmailListWith csv content).emails =
      dedupFirstSeen (emailOccurrences csv content) := by
  unfold parseEmailListWith emailOccurrences dedupFirstSeen
  cases csv with
  | some t =>
    dsimp only
    rw [csvFold_fst t.emailKey t.rows.enum ([], []), enum_map_snd_eq]
  | none =>
    dsimp only
    rw [lineFold_fst (splitLinesJS content.data).enum ([], []), enum_map_snd_eq]

theorem resolveEmailTargets_order (emailOpt fileContent : Option String)
    (emails : List String) (errors : List CSVErrorDetail)
    (h : resolveEmailTargets emailOpt fileContent = ResolveOutcome.resolved emails errors) :
    emails = dedupFirstSeen (targetOccurrences emailOpt fileContent) := by
  have hfile : ∀ (fc : Option String),
      resolveFileTarget fc = ResolveOutcome.resolved emails errors →
      emails = dedupFirstSeen
        (match fc with
          | some content => emailOccurrences (tryParseEmailCSV content) content
          | none => []) := by
    intro fc hf
    unfold resolveFileTarget at hf
    cases fc with
    | none => cases hf
    | some content =>
      dsimp only at hf ⊢
      injection hf with h1 h2
      rw [← h1]
      exact parseEmailListWith_order (tryParseEmailCSV content) content
  unfold resolveEmailTargets at h
  unfold targetOccurrences
  cases emailOpt with
  | none => exact hfile fileContent h
  | some e =>
    dsimp only at h ⊢
    by_cases he : e = ""
    · rw [if_pos he] at h ⊢
      exact hfile fileContent h
    · rw [if_neg he] at h ⊢
      split at h
      · cases h
      · split at h
        · cases h
        · injection h with h1 h2
          rw [← h1]
          simp [dedupFirstSeen, addEmail, normalizeEmail]


/-- Claim C8: resolving `--email "User@Example.COM"` yields exactly
`["user@example.com"]` with no errors, identical to resolving a file
containing `user@example.com`; and every resolved target list is
duplicate-free with every member syntactically valid and fixed under
trim-and-lowercase normalization, and equals the first-seen-order
deduplication of the accepted-email sequence: each member appears at
its first occurrence, and members are ordered by their first
occurrence in the input. -/
theorem resolveEmailTargets_normalized (emailOpt fileContent : Option String) :
    resolveEmailTargets (some "User@Example.COM") none =
      ResolveOutcome.resolved ["user@example.com"] [] ∧
    resolveEmailTargets none (some "user@example.com") =
      ResolveOutcome.resolved ["user@example.com"] [] ∧
    (∀ emails errors,
      resolveEmailTargets emailOpt fileContent = ResolveOutcome.resolved emails errors →
      emails.Nodup ∧ ∀ e ∈ emails, isValidEmail e = true ∧ normalizeEmail e = e) ∧
    (∀ emails errors,
      resolveEmailTargets emailOpt fileContent = ResolveOutcome.resolved emails errors →
      emails = dedupFirstSeen (targetOccurrences emailOpt fileContent) ∧
      emails.Pairwise (fun a b =>
        (targetOccurrences emailOpt fileContent).indexOf a <
        (targetOccurrences emailOpt fileContent).indexOf b)) :=
  ⟨rfl, rfl,
    fun emails errors h =>
      resolveEmailTargets_inv emailOpt fileContent emails errors h,
    fun emails errors h => by
      have heq := resolveEmailTargets_order emailOpt fileContent emails errors h
      refine ⟨heq, ?_⟩
      rw [heq]
      exact dedupFirstSeen_pairwise _⟩

theorem resolveEmailTargets_normalized_witness :
    isValidEmail "user@example.com" = true ∧
    normalizeEmail "user@example.com" = "user@example.com" ∧
    ["user@example.com"] =
      dedupFirstSeen (targetOccurrences (some "User@Example.COM") none) :=
  ⟨(((resolveEmailTargets_normalized (some "User@Example.COM") none).2.2.1
      ["user@example.com"] [] (by decide)).2 "user@example.com" (by decide)).1,
    (((resolveEmailTargets_normalized (some "User@Example.COM") none).2.2.1
      ["user@example.com"] [] (by decide)).2 "user@example.com" (by decide)).2,
    ((resolveEmailTargets_normalized (some "User@Example.COM") none).2.2.2
      ["user@example.com"] [] (by decide)).1⟩


end Bento
